import Mathlib

/-
Verification of the CodeGit version-control backend (src/src-tauri/src/main.rs).

The Rust source is a thin layer over libgit2 (the `git2` crate).  The shallow
embedding below models the repository state that the Tauri commands read and
mutate: the commit object store, the reference store, the index (with conflict
stages), the working directory and the stash stack.  Commit and blob contents
are represented structurally (a tree is a sorted-by-construction association
list of path to content, and a blob id is identified with its content), which
preserves the content-addressing invariant "identical content, identical id".
Object ids are modelled as natural numbers allocated by a counter.

External libgit2 calls that the source merely forwards to (merge_base,
checkout_tree, stash_apply) are modelled from the spec at the boundary, each
marked with a doc comment starting "Modelled from the spec:".
-/

namespace CodeGit

/-- Author/committer signature, mirroring `git2::Signature::now(name, email)`;
`time` stands for the wall-clock timestamp captured by `now`. -/
structure Signature where
  name : String
  email : String
  time : Int
deriving DecidableEq, Repr

/-- Commit object: tree (path to blob content), parent ids, author identity,
message and author time, mirroring the fields the source reads via
`commit.tree()`, `commit.parents()`, `commit.author()`, `commit.message()`,
`commit.time()`. -/
structure Commit where
  tree : List (String × String)
  parents : List Nat
  authorName : String
  authorEmail : String
  message : String
  time : Int
deriving DecidableEq, Repr

/-- Index entry with a conflict stage (0 = resolved, 1 = ancestor, 2 = ours,
3 = theirs); the blob id is identified with its content. -/
structure IndexEntry where
  path : String
  stage : Nat
  content : String
deriving DecidableEq, Repr

/-- Stash stack entry (index 0 = most recent).  `workdirTree` is the captured
working-directory tree and `baseTree` the tree of the stash's recorded parent
commit, the two trees `stash_apply` merges. -/
structure StashEntry where
  message : String
  authorName : String
  time : Int
  workdirTree : List (String × String)
  baseTree : List (String × String)
deriving DecidableEq, Repr

/-- The `MergeConflict` record returned by `get_merge_conflicts`. -/
structure MergeConflict where
  filePath : String
  ancestorContent : String
  ourContent : String
  theirContent : String
  resolution : Option String
deriving DecidableEq, Repr

/-- Per-path conflict produced by the spec's `three_way_merge` (§4.5); an
absent side is `none`, distinct from an empty string. -/
structure SpecConflict where
  path : String
  base : Option String
  ours : Option String
  theirs : Option String
deriving DecidableEq, Repr

/-- The `GitSubmodule` record of the source (fields beyond these three are
irrelevant to the claims and carry no behavior). -/
structure GitSubmodule where
  name : String
  path : String
  url : String
deriving DecidableEq, Repr

/-- Rebase step action, a closed tagged variant exactly as in the source. -/
inductive RebaseAction where
  | pick
  | squash
  | edit
  | reword
  | drop
deriving DecidableEq, Repr

/-- One entry of a rebase plan, mirroring the source's `RebaseCommit`
(the commit id is a Nat in the model). -/
structure RebaseCommit where
  id : Nat
  message : String
  author : String
  email : String
  timestamp : Int
  action : RebaseAction
deriving DecidableEq, Repr

/-- A rebase plan: ordered steps plus the name of the branch to rebase onto. -/
structure RebasePlan where
  commits : List RebaseCommit
  ontoBranch : String
deriving DecidableEq, Repr

/-- Structured form of the result string `merge_branch` returns:
"Fast-forward merged branch ..." / "Merged branch ... with commit ..." /
an error message. -/
inductive MergeResult where
  | fastForwarded (branch : String)
  | merged (branch : String) (newCommit : Nat)
  | failed (msg : String)
deriving DecidableEq, Repr

/-- Repository state: object store (commits by id), reference store,
the branch reference HEAD symbolically points at, the index, the working
directory and the stash stack.  `nextOid` is the id allocator. -/
structure Repo where
  commits : List (Nat × Commit)
  refs : List (String × Nat)
  headRef : String
  indexEntries : List IndexEntry
  workdir : List (String × String)
  stashes : List StashEntry
  nextOid : Nat
deriving DecidableEq, Repr

/-- Loop state of `execute_interactive_rebase`: the evolving repository, the
id of `current_commit`, and `new_commits` in creation order. -/
structure RebaseStepState where
  repo : Repo
  current : Nat
  newCommits : List Nat
deriving DecidableEq, Repr

/-- Lookup of a commit object by id in an association list. -/
def findCommitList : List (Nat × Commit) → Nat → Option Commit
  | [], _ => none
  | kv :: rest, oid => if kv.1 = oid then some kv.2 else findCommitList rest oid

/-- `repo.find_commit(oid)`. -/
def findCommit (r : Repo) (oid : Nat) : Option Commit :=
  findCommitList r.commits oid

/-- Lookup of a reference target by name. -/
def findRefList : List (String × Nat) → String → Option Nat
  | [], _ => none
  | kv :: rest, n => if kv.1 = n then some kv.2 else findRefList rest n

/-- `repo.find_reference(name).target()`. -/
def findRef (r : Repo) (n : String) : Option Nat :=
  findRefList r.refs n

/-- Write a reference (create or overwrite), keeping list order stable. -/
def setRefList : List (String × Nat) → String → Nat → List (String × Nat)
  | [], n, v => [(n, v)]
  | kv :: rest, n, v => if kv.1 = n then (n, v) :: rest else kv :: setRefList rest n v

/-- `repo.reference(name, oid, force, ...)` / `reference.set_target(oid, ...)`. -/
def setRef (r : Repo) (n : String) (v : Nat) : Repo :=
  { r with refs := setRefList r.refs n v }

/-- Object id HEAD resolves to (`repo.head().peel(...)`, id part). -/
def headOid (r : Repo) : Option Nat :=
  findRef r r.headRef

/-- `repo.find_branch(name, BranchType::Local)` resolved to its target id. -/
def resolveBranch (r : Repo) (name : String) : Option Nat :=
  findRef r ("refs/heads/" ++ name)

/-- Build the commit record `repo.commit(_, &sig, &sig, message, &tree, parents)`
stores: author and committer are the given signature. -/
def mkCommit (tree : List (String × String)) (parents : List Nat)
    (sig : Signature) (message : String) : Commit :=
  ⟨tree, parents, sig.name, sig.email, message, sig.time⟩

/-- `repo.commit(None, ...)`: append the object, allocate its id, update no
reference. -/
def appendCommit (r : Repo) (c : Commit) : Repo × Nat :=
  ({ r with commits := r.commits ++ [(r.nextOid, c)], nextOid := r.nextOid + 1 },
   r.nextOid)

/-- `repo.commit(Some "HEAD", ...)`: append the object and advance the branch
reference HEAD points at. -/
def commitToHead (r : Repo) (sig : Signature) (message : String)
    (tree : List (String × String)) (parents : List Nat) : Repo × Nat :=
  let res := appendCommit r (mkCommit tree parents sig message)
  (setRef res.1 res.1.headRef res.2, res.2)

/-- Whether an `Except` result is a success (`Result::is_ok`). -/
def isOkE {α : Type} : Except String α → Bool
  | Except.ok _ => true
  | Except.error _ => false

/-- Fueled ancestor closure of a commit (the commit itself included); the
fuel bounds the walk depth, which for an acyclic store never exceeds the
number of stored commits. -/
def reachFuel (r : Repo) : Nat → Nat → List Nat
  | 0, _ => []
  | fuel + 1, oid =>
    match findCommit r oid with
    | none => []
    | some c => oid :: (c.parents.map (fun p => reachFuel r fuel p)).flatten

/-- Commits reachable from `oid` (ancestor closure including `oid`). -/
def reach (r : Repo) (oid : Nat) : List Nat :=
  reachFuel r (r.commits.length + 1) oid

/-- Fueled generation number (distance from a root commit). -/
def genFuel (r : Repo) : Nat → Nat → Nat
  | 0, _ => 0
  | fuel + 1, oid =>
    match findCommit r oid with
    | none => 0
    | some c =>
      match c.parents with
      | [] => 0
      | ps => 1 + (ps.map (fun p => genFuel r fuel p)).foldl Nat.max 0

/-- Generation of a commit in the store. -/
def genOf (r : Repo) (oid : Nat) : Nat :=
  genFuel r (r.commits.length + 1) oid

/-- Among candidate common ancestors pick the nearest (largest generation),
tie-broken deterministically by lowest commit id. -/
def pickNearest (r : Repo) : List Nat → Option Nat
  | [] => none
  | x :: xs =>
    some (xs.foldl (fun best c =>
      if genOf r best < genOf r c then c
      else if genOf r c < genOf r best then best
      else if c < best then c else best) x)

/-- Modelled from the spec: `merge_base(a, b)` walks both histories and
returns the nearest commit reachable from both, tie-broken by lowest id
(§4.5).  The source delegates this to libgit2's `Repository::merge_base`,
which is external to src. -/
def mergeBase (r : Repo) (a b : Nat) : Option Nat :=
  pickNearest r ((reach r a).filter (fun x => (reach r b).contains x))

/-- Content of a path in a tree (`none` when the path is absent). -/
def lookupPath (t : List (String × String)) (p : String) : Option String :=
  match t with
  | [] => none
  | pc :: rest => if pc.1 = p then some pc.2 else lookupPath rest p

/-- Deduplicate a path list keeping first occurrences (accumulator form). -/
def dedupAux : List String → List String → List String
  | [], _ => []
  | x :: xs, seen =>
    if seen.contains x then dedupAux xs seen else x :: dedupAux xs (x :: seen)

/-- Deduplicate a path list keeping first occurrences. -/
def dedupKeepFirst (l : List String) : List String :=
  dedupAux l []

/-- Modelled from the spec: `three_way_merge(base, ours, theirs)` decides
per path present in any of the three trees — unchanged on a side means take
the other side, identical changes merge silently, divergent changes are a
conflict carrying the base/ours/theirs contents with absent sides explicit
(§4.5).  Returns the merged tree (non-conflicting paths) and the conflict
list. -/
def threeWayMerge (base ours theirs : List (String × String)) :
    List (String × String) × List SpecConflict :=
  let paths := dedupKeepFirst
    (base.map (fun pc => pc.1) ++ ours.map (fun pc => pc.1) ++
     theirs.map (fun pc => pc.1))
  paths.foldl (fun acc p =>
    let b := lookupPath base p
    let o := lookupPath ours p
    let t := lookupPath theirs p
    if o = b then
      match t with
      | some ct => (acc.1 ++ [(p, ct)], acc.2)
      | none => acc
    else if t = b then
      match o with
      | some co => (acc.1 ++ [(p, co)], acc.2)
      | none => acc
    else if o = t then
      match o with
      | some co => (acc.1 ++ [(p, co)], acc.2)
      | none => acc
    else (acc.1, acc.2 ++ [⟨p, b, o, t⟩])) ([], [])

/-- Stage 1/2/3 index entries materializing a conflict list, one entry per
present side. -/
def conflictEntries (cs : List SpecConflict) : List IndexEntry :=
  cs.flatMap (fun c =>
    (match c.base with | some s => [⟨c.path, 1, s⟩] | none => []) ++
    (match c.ours with | some s => [⟨c.path, 2, s⟩] | none => []) ++
    (match c.theirs with | some s => [⟨c.path, 3, s⟩] | none => []))

/-- Content of the entry for `p` at conflict stage `s`, if any. -/
def findStage (entries : List IndexEntry) (p : String) (s : Nat) : Option String :=
  match entries with
  | [] => none
  | e :: rest => if e.path = p ∧ e.stage = s then some e.content else findStage rest p s

/-- Paths having at least one conflict-stage entry, in index order. -/
def conflictedPaths (entries : List IndexEntry) : List String :=
  dedupKeepFirst ((entries.filter (fun e => e.stage ≠ 0)).map (fun e => e.path))

/-- Conflict records extracted from an index, as in `get_merge_conflicts`:
a record is emitted only when all three of the ancestor/our/their entries are
present (the source's `if let (Some, Some, Some)`). -/
def conflictsOfIndex (entries : List IndexEntry) : List MergeConflict :=
  (conflictedPaths entries).filterMap (fun p =>
    match findStage entries p 1, findStage entries p 2, findStage entries p 3 with
    | some a, some o, some t => some ⟨p, a, o, t, none⟩
    | _, _, _ => none)

/-- `get_merge_conflicts`: read the index's conflict entries and return the
per-path ancestor/our/their contents. -/
def getMergeConflicts (r : Repo) : List MergeConflict :=
  conflictsOfIndex r.indexEntries

/-- `merge_branch(repo_path, branch_name, author_name, author_email)`.
Resolve the named local branch and HEAD, compute the merge base, and:
if the base equals the HEAD commit, fast-forward (move HEAD's branch
reference to the target, then check out the target tree); otherwise create
a merge commit — the source passes the TARGET commit's tree as the merge
commit's tree, with parents `[head, target]`.  `checkoutOk` models the
success of the external `checkout_tree` filesystem call; on checkout failure
the already-performed reference update is not rolled back, exactly as in the
source. -/
def mergeBranch (r : Repo) (branchName : String) (sig : Signature)
    (checkoutOk : Bool) : MergeResult × Repo :=
  match resolveBranch r branchName with
  | none => (MergeResult.failed "Failed to find branch", r)
  | some tgt =>
    match findCommit r tgt with
    | none => (MergeResult.failed "Failed to get target commit", r)
    | some tc =>
      match headOid r with
      | none => (MergeResult.failed "Failed to get HEAD", r)
      | some hd =>
        match findCommit r hd with
        | none => (MergeResult.failed "Failed to get HEAD commit", r)
        | some _ =>
          match mergeBase r hd tgt with
          | none => (MergeResult.failed "Failed to find merge base", r)
          | some mb =>
            if mb = hd then
              let r2 := setRef r r.headRef tgt
              if checkoutOk then (MergeResult.fastForwarded branchName, r2)
              else (MergeResult.failed "Failed to checkout", r2)
            else
              let res := commitToHead r sig ("Merge branch " ++ branchName)
                tc.tree [hd, tgt]
              (MergeResult.merged branchName res.2, res.1)

/-- `cherry_pick_commit(repo_path, commit_id, ...)`: find the commit and the
HEAD commit, then create on HEAD a commit whose tree is the picked commit's
entire tree, whose sole parent is HEAD and whose message is
"Cherry-pick: " prepended to the picked commit's message. -/
def cherryPickCommit (r : Repo) (cid : Nat) (sig : Signature) :
    Except String String × Repo :=
  match findCommit r cid with
  | none => (Except.error "Failed to find commit", r)
  | some c =>
    match headOid r with
    | none => (Except.error "Failed to get HEAD", r)
    | some hd =>
      match findCommit r hd with
      | none => (Except.error "Failed to get HEAD commit", r)
      | some _ =>
        let res := commitToHead r sig ("Cherry-pick: " ++ c.message) c.tree [hd]
        (Except.ok "Cherry-picked commit", res.1)

/-- Stage-0 index entries for a tree, as a reset rewrites the index. -/
def treeToStage0 (t : List (String × String)) : List IndexEntry :=
  t.map (fun pc => ⟨pc.1, 0, pc.2⟩)

/-- `reset_to_commit(repo_path, commit_id, reset_type)`: find the commit,
then dispatch on the mode string — soft moves only HEAD's branch reference,
mixed also rewrites the index from the commit's tree, hard additionally
rewrites the working directory; any other string is rejected before any
mutation. -/
def resetToCommit (r : Repo) (cid : Nat) (resetType : String) :
    Except String String × Repo :=
  match findCommit r cid with
  | none => (Except.error "Failed to find commit", r)
  | some c =>
    let moved := setRef r r.headRef cid
    if resetType = "soft" then
      (Except.ok "Reset soft", moved)
    else if resetType = "mixed" then
      (Except.ok "Reset mixed",
       { moved with indexEntries := treeToStage0 c.tree })
    else if resetType = "hard" then
      (Except.ok "Reset hard",
       { moved with indexEntries := treeToStage0 c.tree, workdir := c.tree })
    else
      (Except.error "Invalid reset type", r)

/-- Modelled from the spec: `apply(index)` three-way-merges the stash's
workdir tree against the current tree using the stash's own recorded parent
as base, and leaves the stash entry in place (§4.7).  The source forwards to
libgit2's `stash_apply(index, None)` and never touches the stash list here;
removal exists only in `drop_stash`. -/
def applyStash (r : Repo) (i : Nat) : Except String String × Repo :=
  match r.stashes[i]? with
  | none => (Except.error "Failed to apply stash", r)
  | some st =>
    let merged := threeWayMerge st.baseTree r.workdir st.workdirTree
    (Except.ok "Applied stash",
     { r with workdir := merged.1,
              indexEntries := r.indexEntries ++ conflictEntries merged.2 })

/-- `drop_stash(repo_path, index)`: remove the entry at `index` from the
stash stack (libgit2's `stash_drop`). -/
def dropStash (r : Repo) (i : Nat) : Except String String × Repo :=
  if i < r.stashes.length then
    (Except.ok "Dropped stash", { r with stashes := r.stashes.eraseIdx i })
  else (Except.error "Failed to drop stash", r)

/-- Commit timestamp of an object id (0 when the id is unknown), for the
walk's tie-break. -/
def timeOf (r : Repo) (oid : Nat) : Int :=
  match findCommit r oid with
  | none => 0
  | some c => c.time

/-- Oldest-first plan order: ascending generation (distance from root), ties
broken by ascending commit timestamp and then by id — the reversal of the
walk order of the spec's revision walker (children before parents, ties by
timestamp descending, §4.4). -/
def planLE (r : Repo) (a b : Nat) : Prop :=
  genOf r a < genOf r b
  ∨ (genOf r a = genOf r b
     ∧ (timeOf r a < timeOf r b ∨ (timeOf r a = timeOf r b ∧ a ≤ b)))

instance (r : Repo) : DecidableRel (planLE r) := fun a b => by
  unfold planLE
  infer_instance

/-- Deduplicate a list keeping first occurrences, skipping anything already
in `seen`. -/
def dedupKeep {α : Type} [DecidableEq α] : List α → List α → List α
  | [], _ => []
  | x :: xs, seen =>
    if x ∈ seen then dedupKeep xs seen else x :: dedupKeep xs (x :: seen)

/-- Modelled from the spec: the revision walker yields each commit reachable
from the pushed root and not reachable from a hidden commit, no commit
before all of its yielded children (reverse-topological), ties by commit
timestamp descending (§4.4); realized deterministically by sorting the
range on descending generation, then descending timestamp, then id.  The
source delegates the walk to libgit2's `revwalk` with `push_head` and
`hide`, external to src. -/
def revwalkNewestFirst (r : Repo) (root : Nat) (hidden : List Nat) : List Nat :=
  List.insertionSort (fun a b => planLE r b a)
    ((dedupKeep (reach r root) []).filter (fun x => decide (x ∉ hidden)))

/-- `RebaseCommit` entry built for a walked commit, default action Pick. -/
def mkRebaseCommit (oid : Nat) (c : Commit) : RebaseCommit :=
  ⟨oid, c.message, c.authorName, c.authorEmail, c.time, RebaseAction.pick⟩

/-- `prepare_interactive_rebase(repo_path, onto_branch, from_commit)`:
push HEAD, hide `from_commit` — `revwalk.hide` fails when that commit does
not exist — walk (newest first), build one Pick entry per walked commit,
and reverse the list so the plan is oldest first.  The `onto_branch`
argument is only recorded in the returned plan. -/
def prepareInteractiveRebase (r : Repo) (ontoBranch : String)
    (fromCommit : Nat) : Except String RebasePlan :=
  match headOid r with
  | none => Except.error "Failed to push HEAD"
  | some hd =>
    match findCommit r fromCommit with
    | none => Except.error "Failed to hide commit"
    | some _ =>
      let walked := revwalkNewestFirst r hd (reach r fromCommit)
      let commits := walked.filterMap (fun oid =>
        (findCommit r oid).map (fun c => mkRebaseCommit oid c))
      Except.ok ⟨commits.reverse, ontoBranch⟩

/-- One step of `execute_interactive_rebase`'s loop: Pick (and the
catch-all covering Squash and Edit, which the source treats identically)
re-creates the original commit's TREE and message on `current`; Reword does
the same with the plan's replacement message; Drop produces nothing. -/
def applyRebaseStep (sig : Signature) (st : RebaseStepState)
    (rc : RebaseCommit) : Except String RebaseStepState :=
  match rc.action with
  | RebaseAction.pick =>
    match findCommit st.repo rc.id with
    | none => Except.error "Failed to find commit"
    | some c =>
      let res := appendCommit st.repo (mkCommit c.tree [st.current] sig c.message)
      Except.ok ⟨res.1, res.2, st.newCommits ++ [res.2]⟩
  | RebaseAction.reword =>
    match findCommit st.repo rc.id with
    | none => Except.error "Failed to find commit"
    | some c =>
      let res := appendCommit st.repo (mkCommit c.tree [st.current] sig rc.message)
      Except.ok ⟨res.1, res.2, st.newCommits ++ [res.2]⟩
  | RebaseAction.drop => Except.ok st
  | _ =>
    match findCommit st.repo rc.id with
    | none => Except.error "Failed to find commit"
    | some c =>
      let res := appendCommit st.repo (mkCommit c.tree [st.current] sig c.message)
      Except.ok ⟨res.1, res.2, st.newCommits ++ [res.2]⟩

/-- Run the rebase steps in order; on a failing step stop and report the
error, keeping the state reached so far (already-created commit objects
persist, as in the source). -/
def runSteps (sig : Signature) : List RebaseCommit → RebaseStepState →
    RebaseStepState × Option String
  | [], st => (st, none)
  | rc :: rest, st =>
    match applyRebaseStep sig st rc with
    | Except.ok st2 => runSteps sig rest st2
    | Except.error e => (st, some e)

/-- `execute_interactive_rebase(repo_path, rebase_plan, ...)`: resolve the
onto branch, replay the plan starting from its commit, and if any commit was
produced advance HEAD's branch reference to the last one
(`head.set_target`, a compare-and-swap against the value just read). -/
def executeInteractiveRebase (r : Repo) (plan : RebasePlan) (sig : Signature) :
    Except String String × Repo :=
  match resolveBranch r plan.ontoBranch with
  | none => (Except.error "Failed to find target", r)
  | some ontoOid =>
    match findCommit r ontoOid with
    | none => (Except.error "Failed to get commit", r)
    | some _ =>
      let res := runSteps sig plan.commits ⟨r, ontoOid, []⟩
      match res.2 with
      | some e => (Except.error e, res.1.repo)
      | none =>
        match res.1.newCommits.getLast? with
        | none => (Except.ok "Interactive rebase completed", res.1.repo)
        | some last =>
          (Except.ok "Interactive rebase completed",
           setRef res.1.repo res.1.repo.headRef last)

/-- `get_submodules`: the source returns an empty list and succeeds. -/
def getSubmodules (r : Repo) : Except String (List GitSubmodule) × Repo :=
  (Except.ok [], r)

/-- `add_submodule`: unconditionally an error, no mutation. -/
def addSubmodule (r : Repo) (_url _p : String) (_branch : Option String) :
    Except String String × Repo :=
  (Except.error "Submodule operations not yet implemented", r)

/-- `update_submodule`: unconditionally an error, no mutation. -/
def updateSubmodule (r : Repo) (_name : String) (_recursive : Bool) :
    Except String String × Repo :=
  (Except.error "Submodule operations not yet implemented", r)

/-- `remove_submodule`: unconditionally an error, no mutation. -/
def removeSubmodule (r : Repo) (_name : String) :
    Except String String × Repo :=
  (Except.error "Submodule operations not yet implemented", r)

/-- `init_submodule`: unconditionally an error, no mutation. -/
def initSubmodule (r : Repo) (_name : String) :
    Except String String × Repo :=
  (Except.error "Submodule operations not yet implemented", r)

/-- `sync_submodule`: unconditionally an error, no mutation. -/
def syncSubmodule (r : Repo) (_name : String) :
    Except String String × Repo :=
  (Except.error "Submodule operations not yet implemented", r)

/-- Signature used by the concrete examples. -/
def sigEx : Signature := ⟨"Dev", "dev@example.com", 100⟩

/-- Scenario A root commit: `file.txt = "a"`. -/
def ffCommitA : Commit := ⟨[("file.txt", "a")], [], "Alice", "alice@ex.com", "A", 1⟩

/-- Scenario A feature commit: `file.txt = "b"`, child of the root. -/
def ffCommitB : Commit := ⟨[("file.txt", "b")], [1], "Bob", "bob@ex.com", "B", 2⟩

/-- Scenario A repository: `main` at the root, `feature` one commit ahead,
HEAD on `main` — a pure fast-forward situation. -/
def ffR : Repo :=
  ⟨[(1, ffCommitA), (2, ffCommitB)],
   [("refs/heads/main", 1), ("refs/heads/feature", 2)],
   "refs/heads/main", [], [("file.txt", "a")], [], 3⟩

/-- Scenario B main-side commit: `file.txt = "main-edit"`, child of the root. -/
def scenCommitM : Commit :=
  ⟨[("file.txt", "main-edit")], [1], "Alice", "alice@ex.com", "M", 2⟩

/-- Scenario B feature-side commit: `file.txt = "feature-edit"`, child of the
root. -/
def scenCommitF : Commit :=
  ⟨[("file.txt", "feature-edit")], [1], "Bob", "bob@ex.com", "F", 3⟩

/-- Scenario B repository: both `main` and `feature` edited `file.txt`
differently since their common ancestor; HEAD on `main`. -/
def scenB : Repo :=
  ⟨[(1, ffCommitA), (2, scenCommitM), (3, scenCommitF)],
   [("refs/heads/main", 2), ("refs/heads/feature", 3)],
   "refs/heads/main", [], [("file.txt", "main-edit")], [], 4⟩

/-- Rebase example base commit `P`: `a.txt = "base"`. -/
def rbCommitP : Commit := ⟨[("a.txt", "base")], [], "Olga", "olga@ex.com", "P", 1⟩

/-- Rebase example picked commit `C`: edits `a.txt`, child of `P`. -/
def rbCommitC : Commit :=
  ⟨[("a.txt", "c")], [10], "Olga", "olga@ex.com", "change a", 2⟩

/-- Rebase example target commit `T`: adds `t.txt`, child of `P`. -/
def rbCommitT : Commit :=
  ⟨[("a.txt", "base"), ("t.txt", "t")], [10], "Olga", "olga@ex.com", "add t", 3⟩

/-- Rebase example repository: HEAD on `main` at `C`, target branch at `T`. -/
def rbR : Repo :=
  ⟨[(10, rbCommitP), (11, rbCommitC), (12, rbCommitT)],
   [("refs/heads/main", 11), ("refs/heads/target", 12)],
   "refs/heads/main", [], [], [], 13⟩

/-- Rebase example plan: a single non-conflicting Pick of `C` onto `target`. -/
def rbPlan : RebasePlan :=
  ⟨[⟨11, "change a", "Olga", "olga@ex.com", 2, RebaseAction.pick⟩], "target"⟩

/-- Planning example, commits 1 ← 2 ← 3 on `main` and 1 ← 4 on `target`:
`merge_base(HEAD, target) = 1` while the caller passes `from_commit = 2`. -/
def prR : Repo :=
  ⟨[(1, ⟨[], [], "Olga", "olga@ex.com", "c1", 1⟩),
    (2, ⟨[], [1], "Olga", "olga@ex.com", "c2", 2⟩),
    (3, ⟨[], [2], "Olga", "olga@ex.com", "c3", 3⟩),
    (4, ⟨[], [1], "Olga", "olga@ex.com", "c4", 4⟩)],
   [("refs/heads/main", 3), ("refs/heads/target", 4)],
   "refs/heads/main", [], [], [], 5⟩

/-- Stash example entry: one modified file over a clean base. -/
def stEntry : StashEntry :=
  ⟨"wip", "Olga", 5, [("f.txt", "dirty")], [("f.txt", "clean")]⟩

/-- Stash example repository with a single stash entry. -/
def stR : Repo :=
  ⟨[(1, ffCommitA)], [("refs/heads/main", 1)], "refs/heads/main",
   [], [("f.txt", "clean")], [stEntry], 2⟩

theorem findRefList_setRefList_self (l : List (String × Nat)) (n : String)
    (v : Nat) : findRefList (setRefList l n v) n = some v := by
  induction l with
  | nil => simp [setRefList, findRefList]
  | cons kv rest ih =>
    by_cases h : kv.1 = n
    · simp [setRefList, findRefList, h]
    · simp [setRefList, findRefList, h, ih]

theorem findRef_setRef_self (r : Repo) (n : String) (v : Nat) :
    findRef (setRef r n v) n = some v :=
  findRefList_setRefList_self r.refs n v

theorem commits_setRef (r : Repo) (n : String) (v : Nat) :
    (setRef r n v).commits = r.commits := rfl

theorem findCommitList_append_of_found (l tail : List (Nat × Commit))
    (oid : Nat) (c : Commit) (h : findCommitList l oid = some c) :
    findCommitList (l ++ tail) oid = some c := by
  induction l with
  | nil => simp [findCommitList] at h
  | cons kv rest ih =>
    by_cases hk : kv.1 = oid
    · simp only [findCommitList, hk, if_pos rfl] at h
      simpa [findCommitList, hk] using h
    · simp only [findCommitList, hk, if_neg hk, List.cons_append] at h ⊢
      exact ih h

theorem findCommit_appendCommit (r : Repo) (d : Commit) (oid : Nat)
    (c : Commit) (h : findCommit r oid = some c) :
    findCommit (appendCommit r d).1 oid = some c :=
  findCommitList_append_of_found r.commits [(r.nextOid, d)] oid c h

theorem mem_dedupKeep {α : Type} [DecidableEq α] :
    ∀ (l seen : List α) (x : α),
      x ∈ dedupKeep l seen ↔ (x ∈ l ∧ x ∉ seen) := by
  intro l
  induction l with
  | nil => intro seen x; simp [dedupKeep]
  | cons y ys ih =>
    intro seen x
    by_cases hy : y ∈ seen
    · rw [dedupKeep, if_pos hy, ih]
      constructor
      · rintro ⟨h1, h2⟩
        exact ⟨List.mem_cons_of_mem y h1, h2⟩
      · rintro ⟨h1, h2⟩
        rcases List.mem_cons.mp h1 with rfl | h1
        · exact absurd hy h2
        · exact ⟨h1, h2⟩
    · rw [dedupKeep, if_neg hy]
      constructor
      · intro hx
        rcases List.mem_cons.mp hx with rfl | hx
        · exact ⟨List.mem_cons_self x ys, hy⟩
        · obtain ⟨h1, h2⟩ := (ih (y :: seen) x).mp hx
          refine ⟨List.mem_cons_of_mem y h1, fun hmem => h2 ?_⟩
          exact List.mem_cons_of_mem y hmem
      · rintro ⟨h1, h2⟩
        rcases List.mem_cons.mp h1 with rfl | h1
        · exact List.mem_cons_self x _
        · by_cases hxy : x = y
          · exact hxy ▸ List.mem_cons_self _ _
          · refine List.mem_cons_of_mem y ((ih (y :: seen) x).mpr ⟨h1, ?_⟩)
            intro hmem
            rcases List.mem_cons.mp hmem with h | h
            · exact hxy h
            · exact h2 h

theorem nodup_dedupKeep {α : Type} [DecidableEq α] :
    ∀ (l seen : List α), (dedupKeep l seen).Nodup := by
  intro l
  induction l with
  | nil => intro seen; simp [dedupKeep]
  | cons y ys ih =>
    intro seen
    by_cases hy : y ∈ seen
    · rw [dedupKeep, if_pos hy]
      exact ih seen
    · rw [dedupKeep, if_neg hy]
      refine List.Nodup.cons ?_ (ih (y :: seen))
      intro hmem
      exact ((mem_dedupKeep ys (y :: seen) y).mp hmem).2 (List.mem_cons_self y seen)

theorem reachFuel_found (r : Repo) :
    ∀ (fuel oid x : Nat), x ∈ reachFuel r fuel oid →
      ∃ c, findCommit r x = some c := by
  intro fuel
  induction fuel with
  | zero => intro oid x hx; simp [reachFuel] at hx
  | succ f ih =>
    intro oid x hx
    rw [reachFuel] at hx
    cases hfc : findCommit r oid with
    | none => rw [hfc] at hx; simp at hx
    | some c =>
      rw [hfc] at hx
      rcases List.mem_cons.mp hx with rfl | hx
      · exact ⟨c, hfc⟩
      · obtain ⟨l, hl, hxl⟩ := List.mem_flatten.mp hx
        obtain ⟨p, _, rfl⟩ := List.mem_map.mp hl
        exact ih p x hxl

theorem filterMap_ids (r : Repo) :
    ∀ (l : List Nat), (∀ x ∈ l, ∃ c, findCommit r x = some c) →
      (l.filterMap (fun oid =>
          (findCommit r oid).map (fun c => mkRebaseCommit oid c))).map
        (fun rc => rc.id) = l := by
  intro l
  induction l with
  | nil => intro _; simp
  | cons y ys ih =>
    intro h
    obtain ⟨c, hc⟩ := h y (List.mem_cons_self y ys)
    rw [List.filterMap_cons, hc]
    simp only [Option.map_some']
    rw [List.map_cons]
    rw [ih (fun x hx => h x (List.mem_cons_of_mem y hx))]
    rfl

theorem planLE_total (r : Repo) (a b : Nat) : planLE r a b ∨ planLE r b a := by
  unfold planLE
  rcases lt_trichotomy (genOf r a) (genOf r b) with h | h | h
  · exact Or.inl (Or.inl h)
  · rcases lt_trichotomy (timeOf r a) (timeOf r b) with ht | ht | ht
    · exact Or.inl (Or.inr ⟨h, Or.inl ht⟩)
    · rcases Nat.le_total a b with hab | hab
      · exact Or.inl (Or.inr ⟨h, Or.inr ⟨ht, hab⟩⟩)
      · exact Or.inr (Or.inr ⟨h.symm, Or.inr ⟨ht.symm, hab⟩⟩)
    · exact Or.inr (Or.inr ⟨h.symm, Or.inl ht⟩)
  · exact Or.inr (Or.inl h)

theorem planLE_trans (r : Repo) (a b c : Nat) :
    planLE r a b → planLE r b c → planLE r a c := by
  unfold planLE
  rintro (h1 | ⟨h1, h1t⟩) (h2 | ⟨h2, h2t⟩)
  · exact Or.inl (lt_trans h1 h2)
  · exact Or.inl (h2 ▸ h1)
  · exact Or.inl (h1 ▸ h2)
  · refine Or.inr ⟨h1.trans h2, ?_⟩
    rcases h1t with ht1 | ⟨ht1, ha1⟩ <;> rcases h2t with ht2 | ⟨ht2, ha2⟩
    · exact Or.inl (lt_trans ht1 ht2)
    · exact Or.inl (ht2 ▸ ht1)
    · exact Or.inl (ht1 ▸ ht2)
    · exact Or.inr ⟨ht1.trans ht2, ha1.trans ha2⟩


/-- Claim C6: a Reword step creates a commit whose tree is identical to the
original commit's tree and whose message is the plan's replacement message;
its result equals what a Pick of the same step produces with only the
message replaced (same tree, same parent, same recorded author — the
caller's signature in both cases), and the original commit's record, author
identity included, is left unaltered in the store. -/
theorem reword_step_tree_identical_message_replaced (sig : Signature)
    (st : RebaseStepState) (idN : Nat) (msgR msgP authN eml : String)
    (tsR tsP : Int) (c : Commit) (h : findCommit st.repo idN = some c) :
    applyRebaseStep sig st ⟨idN, msgR, authN, eml, tsR, RebaseAction.reword⟩ =
      Except.ok ⟨(appendCommit st.repo (mkCommit c.tree [st.current] sig msgR)).1,
                 st.repo.nextOid, st.newCommits ++ [st.repo.nextOid]⟩
    ∧ applyRebaseStep sig st ⟨idN, msgP, authN, eml, tsP, RebaseAction.pick⟩ =
      Except.ok ⟨(appendCommit st.repo
                    (mkCommit c.tree [st.current] sig c.message)).1,
                 st.repo.nextOid, st.newCommits ++ [st.repo.nextOid]⟩
    ∧ (mkCommit c.tree [st.current] sig msgR).tree = c.tree
    ∧ mkCommit c.tree [st.current] sig msgR =
        { mkCommit c.tree [st.current] sig c.message with message := msgR }
    ∧ findCommit (appendCommit st.repo
        (mkCommit c.tree [st.current] sig msgR)).1 idN = some c := by
  refine ⟨?_, ?_, rfl, rfl, ?_⟩
  · simp [applyRebaseStep, h, appendCommit]
  · simp [applyRebaseStep, h, appendCommit]
  · exact findCommit_appendCommit st.repo _ idN c h

/-- Witness for C6 at a concrete repository and step. -/
theorem reword_step_tree_identical_message_replaced_witness :
    applyRebaseStep sigEx ⟨rbR, 12, []⟩
        ⟨11, "new words", "Olga", "olga@ex.com", 2, RebaseAction.reword⟩ =
      Except.ok ⟨(appendCommit rbR (mkCommit rbCommitC.tree [12] sigEx
                    "new words")).1, 13, [13]⟩
    ∧ (mkCommit rbCommitC.tree [12] sigEx "new words").tree = rbCommitC.tree :=
  ⟨(reword_step_tree_identical_message_replaced sigEx ⟨rbR, 12, []⟩ 11
      "new words" "unused" "Olga" "olga@ex.com" 2 2 rbCommitC rfl).1,
   (reword_step_tree_identical_message_replaced sigEx ⟨rbR, 12, []⟩ 11
      "new words" "unused" "Olga" "olga@ex.com" 2 2 rbCommitC rfl).2.2.1⟩

/-- Claim C7: applying a stash leaves the stash list itself unchanged — no
entry removed or reordered, the entry at the applied index still present —
while removal happens only through the separate drop operation. -/
theorem apply_stash_preserves_stash_list (r : Repo) (i : Nat) :
    ((applyStash r i).2).stashes = r.stashes
    ∧ (i < r.stashes.length →
        ((applyStash r i).2).stashes[i]? = r.stashes[i]?
        ∧ isOkE (applyStash r i).1 = true)
    ∧ (i < r.stashes.length →
        ((dropStash r i).2).stashes = r.stashes.eraseIdx i) := by
  have hpres : ((applyStash r i).2).stashes = r.stashes := by
    unfold applyStash
    cases h : r.stashes[i]? <;> simp
  refine ⟨hpres, ?_, ?_⟩
  · intro hlt
    refine ⟨by rw [hpres], ?_⟩
    unfold applyStash
    rw [List.getElem?_eq_getElem hlt]
    simp [isOkE]
  · intro hlt
    simp [dropStash, hlt]

/-- Witness for C7 on a repository with one stash entry. -/
theorem apply_stash_preserves_stash_list_witness :
    ((applyStash stR 0).2).stashes = stR.stashes
    ∧ ((applyStash stR 0).2).stashes[0]? = stR.stashes[0]?
    ∧ isOkE (applyStash stR 0).1 = true
    ∧ ((dropStash stR 0).2).stashes = stR.stashes.eraseIdx 0 :=
  ⟨(apply_stash_preserves_stash_list stR 0).1,
   ((apply_stash_preserves_stash_list stR 0).2.1 (by decide)).1,
   ((apply_stash_preserves_stash_list stR 0).2.1 (by decide)).2,
   (apply_stash_preserves_stash_list stR 0).2.2 (by decide)⟩

/-- Claim C8: a reset with a mode string other than soft/mixed/hard fails
and leaves the repository untouched; the three valid strings map to soft
(HEAD only), mixed (HEAD and index) and hard (HEAD, index and working tree)
semantics. -/
theorem reset_mode_validation_and_semantics (r : Repo) (cid : Nat)
    (mode : String)
    (hm : mode ≠ "soft" ∧ mode ≠ "mixed" ∧ mode ≠ "hard") :
    (isOkE (resetToCommit r cid mode).1 = false
     ∧ (resetToCommit r cid mode).2 = r)
    ∧ (∀ c : Commit, findCommit r cid = some c →
        (resetToCommit r cid "soft").2 = setRef r r.headRef cid
        ∧ (resetToCommit r cid "mixed").2.refs = (setRef r r.headRef cid).refs
        ∧ (resetToCommit r cid "mixed").2.indexEntries = treeToStage0 c.tree
        ∧ (resetToCommit r cid "mixed").2.workdir = r.workdir
        ∧ (resetToCommit r cid "hard").2.refs = (setRef r r.headRef cid).refs
        ∧ (resetToCommit r cid "hard").2.indexEntries = treeToStage0 c.tree
        ∧ (resetToCommit r cid "hard").2.workdir = c.tree
        ∧ isOkE (resetToCommit r cid "soft").1 = true
        ∧ isOkE (resetToCommit r cid "mixed").1 = true
        ∧ isOkE (resetToCommit r cid "hard").1 = true) := by
  obtain ⟨h1, h2, h3⟩ := hm
  constructor
  · unfold resetToCommit
    cases hf : findCommit r cid with
    | none => simp [isOkE]
    | some c => simp [h1, h2, h3, isOkE]
  · intro c hc
    refine ⟨?_, ?_, ?_, ?_, ?_, ?_, ?_, ?_, ?_, ?_⟩ <;>
      simp [resetToCommit, hc, setRef, isOkE]

/-- Witness for C8 with the unknown mode string "full" on a concrete
repository. -/
theorem reset_mode_validation_and_semantics_witness :
    (isOkE (resetToCommit ffR 1 "full").1 = false
     ∧ (resetToCommit ffR 1 "full").2 = ffR)
    ∧ (resetToCommit ffR 1 "soft").2 = setRef ffR ffR.headRef 1
    ∧ (resetToCommit ffR 1 "hard").2.workdir = ffCommitA.tree :=
  ⟨(reset_mode_validation_and_semantics ffR 1 "full"
      ⟨by decide, by decide, by decide⟩).1,
   ((reset_mode_validation_and_semantics ffR 1 "full"
      ⟨by decide, by decide, by decide⟩).2 ffCommitA rfl).1,
   ((reset_mode_validation_and_semantics ffR 1 "full"
      ⟨by decide, by decide, by decide⟩).2 ffCommitA rfl).2.2.2.2.2.2.1⟩

/-- Counterexample for C9: the submodule LIST operation does not fail — the
source's `get_submodules` succeeds with an empty list, so not every
submodule operation fails with an Unsupported error. -/
theorem get_submodules_returns_ok_example :
    getSubmodules ffR = (Except.ok [], ffR)
    ∧ isOkE (getSubmodules ffR).1 = true :=
  ⟨rfl, rfl⟩

/-- Claim C9 (amended): the five mutating submodule operations (add, update,
remove, init, sync) each fail with the not-yet-implemented error and mutate
nothing, while the list operation succeeds returning an empty list, also
mutating nothing. -/
theorem submodule_operations_surface (r : Repo) (url p name : String)
    (branch : Option String) (recursive : Bool) :
    getSubmodules r = (Except.ok [], r)
    ∧ addSubmodule r url p branch =
        (Except.error "Submodule operations not yet implemented", r)
    ∧ updateSubmodule r name recursive =
        (Except.error "Submodule operations not yet implemented", r)
    ∧ removeSubmodule r name =
        (Except.error "Submodule operations not yet implemented", r)
    ∧ initSubmodule r name =
        (Except.error "Submodule operations not yet implemented", r)
    ∧ syncSubmodule r name =
        (Except.error "Submodule operations not yet implemented", r) :=
  ⟨rfl, rfl, rfl, rfl, rfl, rfl⟩

/-- Claim C10: a cherry-pick creates exactly one new commit whose tree is
the picked commit's entire tree, whose sole parent is the HEAD commit and
whose message is "Cherry-pick: " prepended to the picked commit's message;
HEAD's branch reference advances to it, the index is untouched and no
conflict is ever reported. -/
theorem cherry_pick_copies_source_tree (r : Repo) (cid : Nat)
    (sig : Signature) (c hc : Commit) (hd : Nat)
    (h1 : findCommit r cid = some c) (h2 : headOid r = some hd)
    (h3 : findCommit r hd = some hc) :
    isOkE (cherryPickCommit r cid sig).1 = true
    ∧ (cherryPickCommit r cid sig).2.commits =
        r.commits ++ [(r.nextOid,
          mkCommit c.tree [hd] sig ("Cherry-pick: " ++ c.message))]
    ∧ findRef (cherryPickCommit r cid sig).2 r.headRef = some r.nextOid
    ∧ (cherryPickCommit r cid sig).2.indexEntries = r.indexEntries
    ∧ getMergeConflicts (cherryPickCommit r cid sig).2 = getMergeConflicts r := by
  unfold cherryPickCommit
  simp only [h1, h2, h3]
  exact ⟨rfl, rfl, findRef_setRef_self _ _ _, rfl, rfl⟩

/-- Claim C3: a merge takes the fast-forward path — moving the current
branch reference to the target with no new commit created — exactly when
the merge base of the current HEAD commit and the target equals the current
HEAD commit. -/
theorem merge_fast_forward_iff_merge_base_eq_head (r : Repo) (b : String)
    (sig : Signature) (tgt hd : Nat) (tc hc : Commit)
    (h1 : resolveBranch r b = some tgt) (h2 : findCommit r tgt = some tc)
    (h3 : headOid r = some hd) (h4 : findCommit r hd = some hc) :
    ((mergeBranch r b sig true).1 = MergeResult.fastForwarded b
      ∧ (mergeBranch r b sig true).2.commits = r.commits
      ∧ findRef (mergeBranch r b sig true).2 r.headRef = some tgt)
    ↔ mergeBase r hd tgt = some hd := by
  unfold mergeBranch
  simp only [h1, h2, h3, h4]
  cases hmb : mergeBase r hd tgt with
  | none => simp
  | some mb =>
    by_cases he : mb = hd
    · subst he
      simp [findRef_setRef_self, commits_setRef]
    · simp [he]

/-- Witness for C3 on the Scenario A repository, where the merge base is
the HEAD commit and the merge does fast-forward. -/
theorem merge_fast_forward_iff_merge_base_eq_head_witness :
    (mergeBranch ffR "feature" sigEx true).1 = MergeResult.fastForwarded "feature"
    ∧ findRef (mergeBranch ffR "feature" sigEx true).2 ffR.headRef = some 2
    ∧ (mergeBranch ffR "feature" sigEx true).2.commits = ffR.commits := by
  have h := (merge_fast_forward_iff_merge_base_eq_head ffR "feature" sigEx 2 1
      ffCommitB ffCommitA rfl rfl rfl rfl).mpr (by decide)
  exact ⟨h.1, h.2.2, h.2.1⟩

/-- Counterexample for C4: on the Scenario A repository, a fast-forward
merge whose checkout step fails returns an error yet leaves the branch
reference moved to the target commit 2 instead of restoring the
pre-operation value 1 — a partial reference update is observable after a
failure, so the operation is not atomic. -/
theorem merge_error_keeps_moved_ref_example :
    (mergeBranch ffR "feature" sigEx false).1 =
      MergeResult.failed "Failed to checkout"
    ∧ findRef (mergeBranch ffR "feature" sigEx false).2 "refs/heads/main" =
        some 2
    ∧ findRef ffR "refs/heads/main" = some 1 :=
  ⟨rfl, rfl, rfl⟩

/-- Claim C4 (amended): structural operations are not atomic — in the
fast-forward merge path the branch reference is updated before the checkout
call, and when the checkout fails the operation reports an error while the
moved reference stays in place; no pre-operation snapshot is restored. -/
theorem merge_checkout_failure_not_rolled_back (r : Repo) (b : String)
    (sig : Signature) (tgt hd : Nat) (tc hc : Commit)
    (h1 : resolveBranch r b = some tgt) (h2 : findCommit r tgt = some tc)
    (h3 : headOid r = some hd) (h4 : findCommit r hd = some hc)
    (h5 : mergeBase r hd tgt = some hd) :
    (mergeBranch r b sig false).1 = MergeResult.failed "Failed to checkout"
    ∧ findRef (mergeBranch r b sig false).2 r.headRef = some tgt
    ∧ findRef r r.headRef = some hd := by
  refine ⟨?_, ?_, h3⟩
  · unfold mergeBranch
    simp [h1, h2, h3, h4, h5]
  · unfold mergeBranch
    simp [h1, h2, h3, h4, h5, findRef_setRef_self]

/-- Witness for C4 on the Scenario A repository with a failing checkout. -/
theorem merge_checkout_failure_not_rolled_back_witness :
    (mergeBranch ffR "feature" sigEx false).1 =
      MergeResult.failed "Failed to checkout"
    ∧ findRef (mergeBranch ffR "feature" sigEx false).2 ffR.headRef = some 2 := by
  have h := merge_checkout_failure_not_rolled_back ffR "feature" sigEx 2 1
    ffCommitB ffCommitA rfl rfl rfl rfl (by decide)
  exact ⟨h.1, h.2.1⟩

/-- Claim C1 (code bug): in Scenario B — ancestor content "a", ours
"main-edit", theirs "feature-edit" — the source's `merge_branch` silently
creates a merge commit (id 4) whose tree is the TARGET branch's whole tree
and records no conflict in the index, whereas the spec's three-way merge of
those trees yields exactly the claimed conflict carrying the three
contents. -/
theorem merge_branch_scenarioB_no_conflict :
    (mergeBranch scenB "feature" sigEx true).1 = MergeResult.merged "feature" 4
    ∧ findCommit (mergeBranch scenB "feature" sigEx true).2 4 =
        some ⟨[("file.txt", "feature-edit")], [2, 3], "Dev", "dev@example.com",
              "Merge branch feature", 100⟩
    ∧ getMergeConflicts (mergeBranch scenB "feature" sigEx true).2 = []
    ∧ (threeWayMerge [("file.txt", "a")] [("file.txt", "main-edit")]
        [("file.txt", "feature-edit")]).2 =
        [⟨"file.txt", some "a", some "main-edit", some "feature-edit"⟩] :=
  ⟨rfl, rfl, rfl, rfl⟩

/-- Claim C2 (code bug): executing an all-Pick, non-conflicting one-step
plan onto `target` does create exactly one new commit (id 13) and advance
the branch reference to it, but the new commit's tree is a verbatim copy of
the original commit's tree — not the original change replayed onto the
target base, which the spec's three-way merge computes as also containing
`t.txt` from the target. -/
theorem execute_rebase_pick_copies_original_tree :
    isOkE (executeInteractiveRebase rbR rbPlan sigEx).1 = true
    ∧ (executeInteractiveRebase rbR rbPlan sigEx).2.commits.length =
        rbR.commits.length + 1
    ∧ findCommit (executeInteractiveRebase rbR rbPlan sigEx).2 13 =
        some ⟨[("a.txt", "c")], [12], "Dev", "dev@example.com", "change a", 100⟩
    ∧ findRef (executeInteractiveRebase rbR rbPlan sigEx).2 "refs/heads/main" =
        some 13
    ∧ threeWayMerge rbCommitP.tree rbCommitC.tree rbCommitT.tree =
        ([("a.txt", "c"), ("t.txt", "t")], [])
    ∧ (findCommit (executeInteractiveRebase rbR rbPlan sigEx).2 13).map
        (fun cm => cm.tree) ≠
      some (threeWayMerge rbCommitP.tree rbCommitC.tree rbCommitT.tree).1 :=
  ⟨rfl, rfl, rfl, rfl, rfl, by decide⟩

/-- Counterexample for C5: on `prR`, `merge_base(HEAD, target) = 1`, so the
range `merge_base(HEAD, onto)..HEAD` contains commits 2 and 3; but with the
caller-supplied `from_commit = 2` the produced plan contains only commit 3
— the planner never computes the merge base with the onto branch. -/
theorem prepare_rebase_ignores_merge_base_example :
    prepareInteractiveRebase prR "target" 2 =
      Except.ok ⟨[⟨3, "c3", "Olga", "olga@ex.com", 3, RebaseAction.pick⟩],
                 "target"⟩
    ∧ mergeBase prR 3 4 = some 1
    ∧ headOid prR = some 3
    ∧ resolveBranch prR "target" = some 4
    ∧ 2 ∈ reach prR 3
    ∧ 2 ∉ reach prR 1 :=
  ⟨rfl, rfl, rfl, rfl, by decide, by decide⟩

/-- Claim C5 (amended): rebase planning collects EXACTLY the commits
reachable from HEAD but not reachable from the caller-supplied
`from_commit` (hidden together with its ancestors) — not from the merge
base with the onto branch — with no duplicates (the membership below is an
iff and the id list is duplicate-free), ordered oldest first: ascending
generation, ties by ascending timestamp then id, the reversal of the
walk's newest-first order; each entry carries default action Pick, and the
onto branch is only recorded in the returned plan. -/
theorem prepare_rebase_range_from_commit (r : Repo) (onto : String)
    (fromC hd : Nat) (plan : RebasePlan) (cf : Commit)
    (hh : headOid r = some hd)
    (hf : findCommit r fromC = some cf)
    (hp : prepareInteractiveRebase r onto fromC = Except.ok plan) :
    plan.ontoBranch = onto
    ∧ (∀ rc ∈ plan.commits, rc.action = RebaseAction.pick)
    ∧ (plan.commits.map (fun rc => rc.id)).Nodup
    ∧ (∀ x : Nat, x ∈ plan.commits.map (fun rc => rc.id) ↔
        (x ∈ reach r hd ∧ x ∉ reach r fromC))
    ∧ (plan.commits.map (fun rc => rc.id)).Sorted (planLE r) := by
  unfold prepareInteractiveRebase at hp
  rw [hh, hf] at hp
  simp only [Except.ok.injEq] at hp
  subst hp
  have hfound : ∀ x ∈ revwalkNewestFirst r hd (reach r fromC),
      ∃ c, findCommit r x = some c := by
    intro x hx
    have hx1 : x ∈ (dedupKeep (reach r hd) []).filter
        (fun y => decide (y ∉ reach r fromC)) :=
      (List.perm_insertionSort _ _).mem_iff.mp hx
    have hx2 := (List.mem_filter.mp hx1).1
    have hx3 := ((mem_dedupKeep _ _ x).mp hx2).1
    exact reachFuel_found r _ hd x hx3
  have hids : (((revwalkNewestFirst r hd (reach r fromC)).filterMap
        (fun oid => (findCommit r oid).map (fun c => mkRebaseCommit oid c))).reverse).map
        (fun rc => rc.id) =
      (revwalkNewestFirst r hd (reach r fromC)).reverse := by
    rw [List.map_reverse, filterMap_ids r _ hfound]
  refine ⟨rfl, ?_, ?_, ?_, ?_⟩
  · intro rc hrc
    rw [List.mem_reverse] at hrc
    obtain ⟨oid, _, hmap⟩ := List.mem_filterMap.mp hrc
    cases hfc : findCommit r oid with
    | none =>
      rw [hfc] at hmap
      simp at hmap
    | some c =>
      rw [hfc] at hmap
      simp only [Option.map_some', Option.some.injEq] at hmap
      subst hmap
      rfl
  · rw [hids, List.nodup_reverse]
    unfold revwalkNewestFirst
    exact ((List.perm_insertionSort _ _).nodup_iff).mpr
      (List.Nodup.filter _ (nodup_dedupKeep _ _))
  · intro x
    rw [hids, List.mem_reverse]
    unfold revwalkNewestFirst
    rw [(List.perm_insertionSort _ _).mem_iff, List.mem_filter,
      mem_dedupKeep]
    simp
  · rw [hids]
    have hs : List.Sorted (fun a b => planLE r b a)
        (revwalkNewestFirst r hd (reach r fromC)) := by
      unfold revwalkNewestFirst
      haveI ht : IsTotal Nat (fun a b => planLE r b a) :=
        ⟨fun a b => Or.symm (planLE_total r a b)⟩
      haveI htr : IsTrans Nat (fun a b => planLE r b a) :=
        ⟨fun a b c h1 h2 => planLE_trans r c b a h2 h1⟩
      exact List.sorted_insertionSort _ _
    exact List.pairwise_reverse.mpr hs

/-- Witness for C5 on the concrete planning repository: the produced plan
is exactly the one the planner computes, duplicate-free, membership
characterized by the hide range, and sorted oldest first. -/
theorem prepare_rebase_range_from_commit_witness :
    (RebasePlan.mk [RebaseCommit.mk 3 "c3" "Olga" "olga@ex.com" 3
        RebaseAction.pick] "target").ontoBranch = "target"
    ∧ ((RebasePlan.mk [RebaseCommit.mk 3 "c3" "Olga" "olga@ex.com" 3
        RebaseAction.pick] "target").commits.map (fun rc => rc.id)).Nodup
    ∧ (2 ∈ (RebasePlan.mk [RebaseCommit.mk 3 "c3" "Olga" "olga@ex.com" 3
        RebaseAction.pick] "target").commits.map (fun rc => rc.id) ↔
        (2 ∈ reach prR 3 ∧ 2 ∉ reach prR 2))
    ∧ ((RebasePlan.mk [RebaseCommit.mk 3 "c3" "Olga" "olga@ex.com" 3
        RebaseAction.pick] "target").commits.map (fun rc => rc.id)).Sorted
        (planLE prR) := by
  have h := prepare_rebase_range_from_commit prR "target" 2 3
    (RebasePlan.mk [RebaseCommit.mk 3 "c3" "Olga" "olga@ex.com" 3
      RebaseAction.pick] "target")
    (Commit.mk [] [1] "Olga" "olga@ex.com" "c2" 2) rfl rfl rfl
  exact ⟨h.1, h.2.2.1, h.2.2.2.1 2, h.2.2.2.2⟩

/-- Witness for C10: cherry-picking commit 2 on a repository whose HEAD is
commit 1. -/
theorem cherry_pick_copies_source_tree_witness :
    isOkE (cherryPickCommit ffR 2 sigEx).1 = true
    ∧ (cherryPickCommit ffR 2 sigEx).2.commits =
        ffR.commits ++ [(3, mkCommit ffCommitB.tree [1] sigEx
          ("Cherry-pick: " ++ ffCommitB.message))]
    ∧ findRef (cherryPickCommit ffR 2 sigEx).2 ffR.headRef = some 3 :=
  ⟨(cherry_pick_copies_source_tree ffR 2 sigEx ffCommitB ffCommitA 1
      rfl rfl rfl).1,
   (cherry_pick_copies_source_tree ffR 2 sigEx ffCommitB ffCommitA 1
      rfl rfl rfl).2.1,
   (cherry_pick_copies_source_tree ffR 2 sigEx ffCommitB ffCommitA 1
      rfl rfl rfl).2.2.1⟩

end CodeGit
